import Mathlib

/-!
Verification of the secure-embedding demo harness.

The Python scripts under `scripts/` are embedded shallowly:

* text is modelled as `List Char`; Python `str.lower()`, `str.replace`,
  `str.strip('.')`, `str.split()` and the `in` substring test become the
  functions `pyLower`, `removeDots`, `stripDots`, `pyWords` and `<:+:` below;
* the per-pair match classifiers of `attack-stored-vectors.py` and
  `demo-real-vec2text.py` become `attackClassifyRaw`, `classifySecure` and
  `demoClassifyRaw`;
* the ranking metrics of `prove-search-works.py` (top-k overlap, Spearman
  rank correlation, Pearson score correlation and their aggregation) are
  embedded over `ℚ`-valued scores, with the final correlation quotient in `ℝ`;
* the control-flow facts (batch error handling, collection reset, scroll
  pagination) are embedded as explicit state passing.
-/

/-- Python whitespace test for `str.split()` (the characters occurring in the
repository's data). -/
def isSpace (c : Char) : Bool :=
  c = ' ' || c = '\t' || c = '\n'

/-- `str.lower()` on the character list of an ASCII string. -/
def pyLower (l : List Char) : List Char :=
  l.map Char.toLower

/-- `str.replace('.', '')`: delete every period. -/
def removeDots (l : List Char) : List Char :=
  l.filter (fun c => c ≠ '.')

/-- `str.replace('.', '').replace(',', '')` as used by `demo-real-vec2text.py`. -/
def removeDotsCommas (l : List Char) : List Char :=
  l.filter (fun c => c ≠ '.' && c ≠ ',')

/-- Strip leading periods (half of Python `str.strip('.')`). -/
def lstripDots (l : List Char) : List Char :=
  l.dropWhile (fun c => c = '.')

/-- Strip trailing periods (the other half of Python `str.strip('.')`). -/
def rstripDots (l : List Char) : List Char :=
  (l.reverse.dropWhile (fun c => c = '.')).reverse

/-- Python `str.strip('.')`: periods removed from both ends. -/
def stripDots (l : List Char) : List Char :=
  lstripDots (rstripDots l)

/-- Helper for `pyWords`: accumulate the current word (reversed) while
scanning the remaining characters. -/
def wordsAux (acc : List Char) : List Char → List (List Char)
  | [] => if acc.isEmpty then [] else [acc.reverse]
  | c :: t =>
    if isSpace c then
      if acc.isEmpty then wordsAux [] t else acc.reverse :: wordsAux [] t
    else
      wordsAux (c :: acc) t

/-- Python `str.split()`: split on whitespace runs, dropping empty pieces. -/
def pyWords (l : List Char) : List (List Char) :=
  wordsAux [] l

/-- `set(s.lower().replace('.', '').split())` — the token set used by the
protected-collection classifier in `attack-stored-vectors.py`. -/
def wordSet (l : List Char) : Finset (List Char) :=
  (pyWords (removeDots (pyLower l))).toFinset

/-- The fixed stop-word set `{'the', 'a', 'is', 'of', 'in', 'on', 'at'}`. -/
def stopwords : Finset (List Char) :=
  (["the", "a", "is", "of", "in", "on", "at"].map String.toList).toFinset

/-- `original_words & recovered_words - {...}` from `attack-stored-vectors.py`
line 109.  Python's `-` binds tighter than `&`, so the expression parses as
`original_words & (recovered_words - stopwords)`. -/
def leakedWords (orig recov : List Char) : Finset (List Char) :=
  wordSet orig ∩ (wordSet recov \ stopwords)

/-- Verdict of the protected-collection classifier: either the
"PROTECTED (garbage)" line, or the "Words leaked" line carrying the common
token set itself. -/
inductive SecureVerdict
  | protectedGarbage
  | leaked (ws : Finset (List Char))
  deriving DecidableEq

/-- `attack-stored-vectors.py` line 111: protected iff `len(common) == 0`,
otherwise the status string enumerates `common`. -/
def classifySecure (orig recov : List Char) : SecureVerdict :=
  if (leakedWords orig recov).card = 0 then .protectedGarbage
  else .leaked (leakedWords orig recov)

/-- Verdict of a raw-collection inversion check. -/
inductive RawVerdict
  | recovered
  | partialMatch
  | noMatch
  deriving DecidableEq

/-- `attack-stored-vectors.py` line 74:
`"RECOVERED" if original.lower().strip('.') in recovered_text.lower() else "PARTIAL"`. -/
def attackClassifyRaw (orig recov : List Char) : RawVerdict :=
  if stripDots (pyLower orig) <:+: pyLower recov then .recovered else .partialMatch

/-- `demo-real-vec2text.py` lines 106-111: exact when the lowered strings are
equal or the lowered original is a substring of the lowered recovered text;
partial when any of the first three whitespace tokens of the lowered original
occurs in the lowered recovered text; garbage otherwise. -/
def demoClassifyRaw (orig recov : List Char) : RawVerdict :=
  if pyLower recov = pyLower orig ∨ pyLower orig <:+: pyLower recov then .recovered
  else if ((pyWords (pyLower orig)).take 3).any
      (fun w => decide (w <:+: pyLower recov)) then .partialMatch
  else .noMatch

/-- The spec's whole-string normalization: lowercase, strip terminal periods. -/
def specNorm (l : List Char) : List Char :=
  rstripDots (pyLower l)

theorem lstripDots_suffix (l : List Char) : lstripDots l <:+ l :=
  List.dropWhile_suffix _

theorem rstripDots_prefixOf (l : List Char) : rstripDots l <+: l := by
  have h : (rstripDots l).reverse <:+ l.reverse := by
    simpa [rstripDots] using
      List.dropWhile_suffix (l := l.reverse) (fun c => c = '.')
  exact List.reverse_suffix.mp h

/-- The Python expression `A & B - S` equals `(A & B) - S` even though it
parses as `A & (B - S)`. -/
theorem leakedWords_eq (orig recov : List Char) :
    leakedWords orig recov = (wordSet orig ∩ wordSet recov) \ stopwords := by
  ext x
  simp only [leakedWords, Finset.mem_inter, Finset.mem_sdiff]
  tauto

/-- Token set of the demo protected-path classifier
(`demo-real-vec2text.py` lines 140-141): lowercase, delete periods and
commas, split — with NO stop-word removal. -/
def demoWordSet (l : List Char) : Finset (List Char) :=
  (pyWords (removeDotsCommas (pyLower l))).toFinset

/-- `common = original_words & recovered_words` of `demo-real-vec2text.py`
line 142: the plain intersection. -/
def demoCommonWords (orig recov : List Char) : Finset (List Char) :=
  demoWordSet orig ∩ demoWordSet recov

/-- `demo-real-vec2text.py` lines 145-148: "GARBAGE (no meaningful
recovery)" whenever `len(common) <= 2`, otherwise the full common set —
stop words included — is printed. -/
def demoClassifySecure (orig recov : List Char) : SecureVerdict :=
  if (demoCommonWords orig recov).card ≤ 2 then .protectedGarbage
  else .leaked (demoCommonWords orig recov)

/-- C1 counterexample: the demo protected-path classifier (cited by the
claim alongside the stored-vector one) prints GARBAGE for a recovered text
that shares the two content words "paris" and "france" with the original —
the stop-word-free common token set is nonempty, yet the verdict is
"garbage" and nothing is enumerated, refuting the claim's "if and only if"
and its enumeration requirement. -/
theorem secure_overlap_counterexample :
    demoClassifySecure "Paris loves France.".toList "paris visited france today".toList
      = .protectedGarbage ∧
    demoCommonWords "Paris loves France.".toList "paris visited france today".toList
      \ stopwords ≠ ∅ := by decide

/-- C1 amended: the stored-vector attack classifier behaves as the claim
states — "PROTECTED (garbage)" exactly when the stop-word-free intersection
of the two token sets is empty, any other answer enumerating exactly that
nonempty intersection — while the demo protected-path classifier intersects
the token sets without stop-word removal and answers "garbage" exactly when
at most two tokens are common, enumerating the full common set (stop words
included) only when three or more are common. -/
theorem secure_classifiers_spec (orig recov : List Char) :
    ((classifySecure orig recov = .protectedGarbage ↔
      (wordSet orig ∩ wordSet recov) \ stopwords = ∅) ∧
    ∀ ws, classifySecure orig recov = .leaked ws →
      ws = (wordSet orig ∩ wordSet recov) \ stopwords ∧ ws.Nonempty) ∧
    ((demoClassifySecure orig recov = .protectedGarbage ↔
      (demoCommonWords orig recov).card ≤ 2) ∧
    ∀ ws, demoClassifySecure orig recov = .leaked ws →
      ws = demoCommonWords orig recov ∧ 3 ≤ ws.card) := by
  constructor
  · rcases Nat.eq_zero_or_pos (leakedWords orig recov).card with h0 | hpos
    · have hempty : leakedWords orig recov = ∅ := Finset.card_eq_zero.mp h0
      have hcls : classifySecure orig recov = .protectedGarbage := by
        simp [classifySecure, h0]
      refine ⟨⟨fun _ => ?_, fun _ => hcls⟩, fun ws hws => ?_⟩
      · rw [← leakedWords_eq]; exact hempty
      · rw [hcls] at hws; exact absurd hws (by simp)
    · have hne : (leakedWords orig recov).card ≠ 0 := Nat.pos_iff_ne_zero.mp hpos
      have hcls : classifySecure orig recov = .leaked (leakedWords orig recov) := by
        simp [classifySecure, hne]
      have hnonempty : (leakedWords orig recov).Nonempty :=
        Finset.card_pos.mp hpos
      refine ⟨⟨fun h => ?_, fun h => ?_⟩, fun ws hws => ?_⟩
      · rw [hcls] at h; exact absurd h (by simp)
      · rw [← leakedWords_eq] at h
        exact absurd h (Finset.nonempty_iff_ne_empty.mp hnonempty)
      · rw [hcls] at hws
        have : ws = leakedWords orig recov := by
          simpa [eq_comm] using hws
        subst this
        exact ⟨leakedWords_eq orig recov, hnonempty⟩
  · rcases le_or_lt (demoCommonWords orig recov).card 2 with hle | hgt
    · have hcls : demoClassifySecure orig recov = .protectedGarbage := by
        simp [demoClassifySecure, hle]
      refine ⟨⟨fun _ => hle, fun _ => hcls⟩, fun ws hws => ?_⟩
      rw [hcls] at hws
      exact absurd hws (by simp)
    · have hnle : ¬ (demoCommonWords orig recov).card ≤ 2 := not_le.mpr hgt
      have hcls : demoClassifySecure orig recov
          = .leaked (demoCommonWords orig recov) := by
        simp [demoClassifySecure, hnle]
      refine ⟨⟨fun h => ?_, fun hle => absurd hle hnle⟩, fun ws hws => ?_⟩
      · rw [hcls] at h
        exact absurd h (by simp)
      · rw [hcls] at hws
        have hws2 : ws = demoCommonWords orig recov := by
          simpa [eq_comm] using hws
        subst hws2
        exact ⟨rfl, hgt⟩

/-- Witness for the amended C1: a leaking pair for the stored-vector
classifier and a three-common-word pair for the demo classifier. -/
theorem secure_classifiers_spec_witness :
    classifySecure "secret cat".toList "the cat runs".toList
      = .leaked {"cat".toList} ∧
    ({"cat".toList} : Finset (List Char)) =
      (wordSet "secret cat".toList ∩ wordSet "the cat runs".toList) \ stopwords ∧
    ({"cat".toList} : Finset (List Char)).Nonempty ∧
    3 ≤ (demoCommonWords "paris loves france".toList
      "paris loves france today".toList).card := by
  refine ⟨by decide, ?_, ?_, ?_⟩
  · exact ((secure_classifiers_spec "secret cat".toList "the cat runs".toList).1.2
      {"cat".toList} (by decide)).1
  · exact ((secure_classifiers_spec "secret cat".toList "the cat runs".toList).1.2
      {"cat".toList} (by decide)).2
  · exact ((secure_classifiers_spec "paris loves france".toList
      "paris loves france today".toList).2.2
      (demoCommonWords "paris loves france".toList "paris loves france today".toList)
      (by decide)).2

/-- C2 counterexample: `"Hi."` and `"Hi"` agree after the spec's
normalization (lowercase, strip terminal punctuation), yet the demo
classifier of `demo-real-vec2text.py` answers "NO MATCH", not "recovered". -/
theorem demo_norm_counterexample :
    specNorm "Hi.".toList = specNorm "Hi".toList ∧
    demoClassifyRaw "Hi.".toList "Hi".toList = .noMatch := by decide

/-- C2 amended: normalized equality forces "RECOVERED" for the stored-vector
attack classifier; the demo classifier additionally needs the original to
carry no terminal period, because it compares the un-stripped lowered
strings. -/
theorem raw_recovery_after_norm (orig recov : List Char)
    (h : specNorm orig = specNorm recov) :
    attackClassifyRaw orig recov = .recovered ∧
    (rstripDots (pyLower orig) = pyLower orig →
      demoClassifyRaw orig recov = .recovered) := by
  have hr : rstripDots (pyLower orig) = rstripDots (pyLower recov) := h
  constructor
  · have hx : stripDots (pyLower orig) <:+: pyLower recov := by
      have e : stripDots (pyLower orig) = lstripDots (rstripDots (pyLower recov)) := by
        rw [stripDots, hr]
      rw [e]
      exact ((lstripDots_suffix _).isInfix).trans ((rstripDots_prefixOf _).isInfix)
    simp [attackClassifyRaw, hx]
  · intro hnd
    have hpre : pyLower orig <+: pyLower recov := by
      rw [← hnd, hr]
      exact rstripDots_prefixOf _
    simp [demoClassifyRaw, hpre.isInfix]

/-- Witness for the amended C2 at a concrete pair. -/
theorem raw_recovery_after_norm_witness :
    specNorm "The cat".toList = specNorm "the cat.".toList ∧
    rstripDots (pyLower "The cat".toList) = pyLower "The cat".toList ∧
    attackClassifyRaw "The cat".toList "the cat.".toList = .recovered ∧
    demoClassifyRaw "The cat".toList "the cat.".toList = .recovered := by
  have h := raw_recovery_after_norm "The cat".toList "the cat.".toList (by decide)
  exact ⟨by decide, by decide, h.1, h.2 (by decide)⟩

/-- `prove-search-works.py` lines 167-170:
`overlap = len(set(raw_ids[:top_k]) & set(enc_ids[:top_k])) / top_k * 100`. -/
def topKOverlap (raw_ids enc_ids : List ℕ) (k : ℕ) : ℚ :=
  (((raw_ids.take k).toFinset ∩ (enc_ids.take k).toFinset).card : ℚ) / k * 100

/-- C3 counterexample: with identical top-5 id lists the code reports `100`
(a percentage), not the fraction `1`, and the value does not lie in `[0, 1]`. -/
theorem topKOverlap_percent_counterexample :
    topKOverlap [1, 2, 3, 4, 5] [1, 2, 3, 4, 5] 5 = 100 ∧
    ¬ topKOverlap [1, 2, 3, 4, 5] [1, 2, 3, 4, 5] 5 ≤ 1 := by
  have hc : ((List.take 5 [1, 2, 3, 4, 5]).toFinset ∩
      (List.take 5 [1, 2, 3, 4, 5]).toFinset).card = 5 := by decide
  constructor
  · rw [topKOverlap, hc]; norm_num
  · rw [topKOverlap, hc]; norm_num

/-- C3 amended: the metric is `|ids_plain[:k] ∩ ids_encrypted[:k]| / k * 100`,
a percentage in `[0, 100]`, and equals `100` when the two result lists carry
identical (duplicate-free) ids in their top k. -/
theorem topKOverlap_bounds (raw_ids enc_ids : List ℕ) (k : ℕ) (hk : 0 < k) :
    0 ≤ topKOverlap raw_ids enc_ids k ∧ topKOverlap raw_ids enc_ids k ≤ 100 ∧
    (enc_ids = raw_ids → (raw_ids.take k).Nodup → k ≤ raw_ids.length →
      topKOverlap raw_ids enc_ids k = 100) := by
  have hkQ : (0 : ℚ) < k := by exact_mod_cast hk
  refine ⟨?_, ?_, ?_⟩
  · unfold topKOverlap
    positivity
  · have hcard : (((raw_ids.take k).toFinset ∩ (enc_ids.take k).toFinset).card : ℚ) ≤ k := by
      have h1 : ((raw_ids.take k).toFinset ∩ (enc_ids.take k).toFinset).card ≤
          (raw_ids.take k).toFinset.card :=
        Finset.card_le_card Finset.inter_subset_left
      have h2 : (raw_ids.take k).toFinset.card ≤ (raw_ids.take k).length :=
        List.toFinset_card_le (raw_ids.take k)
      have h3 : (raw_ids.take k).length ≤ k := by
        rw [List.length_take]; exact Nat.min_le_left _ _
      exact_mod_cast (h1.trans h2).trans h3
    have hdiv : (((raw_ids.take k).toFinset ∩ (enc_ids.take k).toFinset).card : ℚ) / k ≤ 1 :=
      (div_le_one hkQ).mpr hcard
    calc (((raw_ids.take k).toFinset ∩ (enc_ids.take k).toFinset).card : ℚ) / k * 100
        ≤ 1 * 100 := mul_le_mul_of_nonneg_right hdiv (by norm_num)
      _ = 100 := by norm_num
  · intro heq hnd hlen
    rw [topKOverlap, heq]
    have hcard : ((raw_ids.take k).toFinset ∩ (raw_ids.take k).toFinset).card = k := by
      rw [Finset.inter_self, List.toFinset_card_of_nodup hnd,
        List.length_take, Nat.min_eq_left hlen]
    rw [hcard]
    field_simp

/-- Witness for the amended C3 at a concrete identical pair of result lists. -/
theorem topKOverlap_bounds_witness :
    0 < 2 ∧ 0 ≤ topKOverlap [10, 20] [10, 20] 2 ∧
    topKOverlap [10, 20] [10, 20] 2 = 100 := by
  have h := topKOverlap_bounds [10, 20] [10, 20] 2 (by decide)
  exact ⟨by decide, h.1, h.2.2 rfl (by decide) (by decide)⟩

/-- The list of per-query metric values that were actually appended: a query
where the metric was undefined (guard failed or the correlation was NaN)
contributes `none` and is skipped. -/
def definedValues (xs : List (Option ℚ)) : List ℚ :=
  xs.filterMap id

/-- `np.mean` of a nonempty list. -/
def npMean (l : List ℚ) : ℚ :=
  l.sum / l.length

/-- `prove-search-works.py` lines 208-209:
`np.mean(all_rank_correlations) if all_rank_correlations else 0` — the same
pattern is used for the score correlations. -/
def aggCorr (xs : List (Option ℚ)) : ℚ :=
  if definedValues xs = [] then 0 else npMean (definedValues xs)

/-- C4 counterexample: over a batch where the correlation was defined for no
query, the aggregate is the numeric placeholder `0`, not an absent value. -/
theorem aggCorr_zero_counterexample :
    definedValues [none, none] = [] ∧ aggCorr [none, none] = 0 :=
  ⟨rfl, rfl⟩

/-- C4 amended: each aggregate is the arithmetic mean over only the queries
where the metric is defined, and an undefined query is excluded from the
mean; but an aggregate over zero defined values is coerced to the numeric
placeholder `0` (for the two correlation metrics), not reported as absent. -/
theorem aggCorr_mean_spec (xs : List (Option ℚ)) :
    aggCorr (xs ++ [none]) = aggCorr xs ∧
    (definedValues xs ≠ [] → aggCorr xs = npMean (definedValues xs)) ∧
    (definedValues xs = [] → aggCorr xs = 0) := by
  have hdef : definedValues (xs ++ [none]) = definedValues xs := by
    simp [definedValues]
  refine ⟨?_, fun h => ?_, fun h => ?_⟩
  · unfold aggCorr
    rw [hdef]
  · rw [aggCorr, if_neg h]
  · rw [aggCorr, if_pos h]

/-- Witness for the amended C4 at a concrete batch with one undefined query. -/
theorem aggCorr_mean_spec_witness :
    aggCorr [some 2, none, some 4] = aggCorr [some 2, some 4] ∧
    aggCorr [some 2, none, some 4] = npMean [2, 4] := by
  have h1 := (aggCorr_mean_spec [some 2, none, some 4]).2.1 (by simp [definedValues])
  have h2 : aggCorr ([some 2, some 4] ++ [none]) = aggCorr [some 2, some 4] :=
    (aggCorr_mean_spec [some 2, some 4]).1
  constructor
  · calc aggCorr [some 2, none, some 4]
        = npMean (definedValues [some 2, none, some 4]) := h1
      _ = npMean (definedValues [some 2, some 4]) := by simp [definedValues]
      _ = aggCorr [some 2, some 4] :=
          ((aggCorr_mean_spec [some 2, some 4]).2.1 (by simp [definedValues])).symm
  · simpa [definedValues] using h1

/-- Centered second moment of a series (the common `1/n` factor of numpy's
variance cancels in the correlation quotient and is omitted throughout). -/
def lvar (x : List ℚ) : ℚ :=
  ∑ i in Finset.range x.length, (x.getD i 0 - npMean x) ^ 2

/-- Centered mixed moment of two equally long series. -/
def lcov (x y : List ℚ) : ℚ :=
  ∑ i in Finset.range x.length, (x.getD i 0 - npMean x) * (y.getD i 0 - npMean y)

theorem lvar_nonneg (x : List ℚ) : 0 ≤ lvar x :=
  Finset.sum_nonneg fun _ _ => sq_nonneg _

/-- `scipy.stats.pearsonr` restricted to what the harness observes: the
coefficient when both series vary, and `none` for the NaN that a
zero-variance series produces (the harness drops NaN via `np.isnan`). -/
noncomputable def pearsonOpt (x y : List ℚ) : Option ℝ :=
  if lvar x = 0 ∨ lvar y = 0 then none
  else some ((lcov x y : ℝ) / (Real.sqrt (lvar x) * Real.sqrt (lvar y)))

/-- A defined Pearson coefficient of equally long series lies in `[-1, 1]`. -/
theorem pearsonOpt_bounds (x y : List ℚ) (hlen : y.length = x.length) (r : ℝ)
    (h : pearsonOpt x y = some r) : -1 ≤ r ∧ r ≤ 1 := by
  rw [pearsonOpt] at h
  by_cases hz : lvar x = 0 ∨ lvar y = 0
  · rw [if_pos hz] at h
    exact absurd h (by simp)
  · rw [if_neg hz] at h
    push_neg at hz
    obtain ⟨hx0, hy0⟩ := hz
    have hr : (lcov x y : ℝ) / (Real.sqrt (lvar x) * Real.sqrt (lvar y)) = r :=
      Option.some.inj h
    have hvx : (0 : ℝ) < (lvar x : ℝ) := by
      exact_mod_cast lt_of_le_of_ne (lvar_nonneg x) (Ne.symm hx0)
    have hvy : (0 : ℝ) < (lvar y : ℝ) := by
      exact_mod_cast lt_of_le_of_ne (lvar_nonneg y) (Ne.symm hy0)
    have hcs : (lcov x y) ^ 2 ≤ lvar x * lvar y := by
      have hmain := Finset.sum_mul_sq_le_sq_mul_sq (Finset.range x.length)
        (fun i => x.getD i 0 - npMean x) (fun i => y.getD i 0 - npMean y)
      have h3 : lvar y = ∑ i in Finset.range x.length, (y.getD i 0 - npMean y) ^ 2 := by
        unfold lvar
        rw [hlen]
      rw [lcov, lvar, h3]
      exact hmain
    have hsq : Real.sqrt (lvar x) * Real.sqrt (lvar y) *
        (Real.sqrt (lvar x) * Real.sqrt (lvar y)) = (lvar x : ℝ) * (lvar y : ℝ) := by
      rw [mul_mul_mul_comm, Real.mul_self_sqrt hvx.le, Real.mul_self_sqrt hvy.le]
    have hrr : r * r = ((lcov x y : ℝ)) ^ 2 / ((lvar x : ℝ) * (lvar y : ℝ)) := by
      rw [← hr, div_mul_div_comm, hsq, sq]
    have hquot : ((lcov x y : ℝ)) ^ 2 / ((lvar x : ℝ) * (lvar y : ℝ)) ≤ 1 := by
      rw [div_le_one (by positivity)]
      exact_mod_cast hcs
    have habs : |r| ≤ 1 := by
      rw [abs_le_one_iff_mul_self_le_one, hrr]
      exact hquot
    exact abs_le.mp habs

/-- `scipy.stats.rankdata` with average ties (the ranking `spearmanr` applies
to each input series): the 1-based average rank of each element. -/
def rankdata (l : List ℚ) : List ℚ :=
  l.map (fun v =>
    (l.countP (fun w => decide (w < v)) : ℚ) +
      ((l.countP (fun w => decide (w = v)) : ℚ) + 1) / 2)

/-- `scipy.stats.spearmanr` as the harness observes it: Pearson correlation
of the two rank vectors; `none` for NaN. -/
noncomputable def spearmanOpt (x y : List ℚ) : Option ℝ :=
  pearsonOpt (rankdata x) (rankdata y)

/-- `raw_ranks = {id: rank for rank, id in enumerate(raw_ids)}` followed by
`raw_ranks.get(id, len(raw_ids))`: a Python dict comprehension lets a later
binding overwrite an earlier one, hence the reversed lookup. -/
def dictRankGet (raw_ids : List ℕ) (i : ℕ) : ℕ :=
  (((raw_ids.enum.map (fun p => (p.2, p.1))).reverse).lookup i).getD raw_ids.length

/-- `enc_ranks = [raw_ranks.get(id, len(raw_ids)) for id in enc_ids]`. -/
def enc_ranks (raw_ids enc_ids : List ℕ) : List ℕ :=
  enc_ids.map (dictRankGet raw_ids)

/-- `stats.spearmanr(list(range(len(enc_ids))), enc_ranks)` from
`prove-search-works.py` lines 175-177. -/
noncomputable def rankCorr (raw_ids enc_ids : List ℕ) : Option ℝ :=
  spearmanOpt (List.map (Nat.cast : ℕ → ℚ) (List.range enc_ids.length))
    (List.map (Nat.cast : ℕ → ℚ) (enc_ranks raw_ids enc_ids))

/-- C5: the rank-correlation metric — Spearman correlation between the
encrypted positions `0..n-1` and the looked-up plain ranks (absent ids get
rank `len(raw_ids)`) — lies in `[-1, 1]` whenever it is defined, and is
absent (`none`, never `0`) exactly when either rank series has zero
variance. -/
theorem rankCorr_spec (raw_ids enc_ids : List ℕ) :
    (∀ r, rankCorr raw_ids enc_ids = some r → -1 ≤ r ∧ r ≤ 1) ∧
    (rankCorr raw_ids enc_ids = none ↔
      lvar (rankdata (List.map (Nat.cast : ℕ → ℚ) (List.range enc_ids.length))) = 0 ∨
      lvar (rankdata (List.map (Nat.cast : ℕ → ℚ) (enc_ranks raw_ids enc_ids))) = 0) := by
  have hrd : ∀ l : List ℚ, (rankdata l).length = l.length := fun l => List.length_map _ _
  have hlen : (rankdata (List.map (Nat.cast : ℕ → ℚ) (enc_ranks raw_ids enc_ids))).length =
      (rankdata (List.map (Nat.cast : ℕ → ℚ) (List.range enc_ids.length))).length := by
    rw [hrd, hrd, List.length_map, List.length_map, enc_ranks, List.length_map,
      List.length_range]
  constructor
  · intro r hr
    exact pearsonOpt_bounds _ _ hlen r hr
  · rw [rankCorr, spearmanOpt, pearsonOpt]
    by_cases hz :
        lvar (rankdata (List.map (Nat.cast : ℕ → ℚ) (List.range enc_ids.length))) = 0 ∨
        lvar (rankdata (List.map (Nat.cast : ℕ → ℚ) (enc_ranks raw_ids enc_ids))) = 0
    · rw [if_pos hz]
      simpa using hz
    · rw [if_neg hz]
      simpa using hz

/-- Witness for C5 at the concrete perfectly aligned result lists. -/
theorem rankCorr_spec_witness :
    rankCorr [0, 1] [0, 1] = some 1 ∧ -1 ≤ (1 : ℝ) ∧ (1 : ℝ) ≤ 1 := by
  have h1 : List.map (Nat.cast : ℕ → ℚ) (List.range ([0, 1] : List ℕ).length) = [0, 1] := by
    norm_num [List.range_succ]
  have h2 : List.map (Nat.cast : ℕ → ℚ) (enc_ranks [0, 1] [0, 1]) = [0, 1] := by
    have he : enc_ranks [0, 1] [0, 1] = [0, 1] := by decide
    rw [he]; norm_num
  have hrk : rankdata [(0 : ℚ), 1] = [1, 2] := by
    norm_num [rankdata, List.countP_cons, List.countP_nil]
  have hv : lvar [(1 : ℚ), 2] = 1/2 := by
    norm_num [lvar, npMean, Finset.sum_range_succ]
  have hc : lcov [(1 : ℚ), 2] [(1 : ℚ), 2] = 1/2 := by
    norm_num [lcov, npMean, Finset.sum_range_succ]
  have hval : rankCorr [0, 1] [0, 1] = some 1 := by
    rw [rankCorr, h1, h2, spearmanOpt, hrk, pearsonOpt]
    rw [if_neg (by simp [hv])]
    rw [hc, hv]
    have hs : Real.sqrt ((1/2 : ℚ) : ℝ) * Real.sqrt ((1/2 : ℚ) : ℝ) = ((1/2 : ℚ) : ℝ) :=
      Real.mul_self_sqrt (by positivity)
    rw [hs]
    norm_num
  exact ⟨hval, (rankCorr_spec [0, 1] [0, 1]).1 1 hval⟩

/-- `common_ids = set(raw_ids) & set(enc_ids)`, iterated as a list.  Python
iterates the set in an unspecified order; both matched score lists use the
one shared order, and Pearson is invariant under it, so a canonical
enumeration (first occurrence in `raw_ids`) is faithful. -/
def commonList (raw_ids enc_ids : List ℕ) : List ℕ :=
  (raw_ids.filter (fun i => decide (i ∈ enc_ids))).dedup

/-- `scores[ids.index(id)]` — the score stored for an id, matched by id. -/
def scoreAt (ids : List ℕ) (scores : List ℚ) (i : ℕ) : ℚ :=
  scores.getD (ids.indexOf i) 0

/-- `prove-search-works.py` lines 183-189: require at least three common ids,
pair the two score sequences by id, and keep the Pearson coefficient only
when it is not NaN. -/
noncomputable def scoreCorr (raw_ids : List ℕ) (raw_scores : List ℚ)
    (enc_ids : List ℕ) (enc_scores : List ℚ) : Option ℝ :=
  if 3 ≤ (commonList raw_ids enc_ids).length then
    pearsonOpt ((commonList raw_ids enc_ids).map (scoreAt raw_ids raw_scores))
      ((commonList raw_ids enc_ids).map (scoreAt enc_ids enc_scores))
  else none

/-- C6 counterexample: three common ids but a constant raw score series make
`pearsonr` NaN, so the metric is absent although `|common| ≥ 3` — presence is
not equivalent to having at least three common ids. -/
theorem scoreCorr_nan_counterexample :
    3 ≤ (commonList [1, 2, 3] [1, 2, 3]).length ∧
    scoreCorr [1, 2, 3] [7, 7, 7] [1, 2, 3] [1, 2, 3] = none := by
  have hcl : commonList [1, 2, 3] [1, 2, 3] = [1, 2, 3] := by decide
  have hm : (commonList [1, 2, 3] [1, 2, 3]).map
      (scoreAt [1, 2, 3] ([7, 7, 7] : List ℚ)) = [7, 7, 7] := by
    rw [hcl]
    norm_num [scoreAt, List.indexOf_cons]
  have hvz : lvar ((commonList [1, 2, 3] [1, 2, 3]).map
      (scoreAt [1, 2, 3] ([7, 7, 7] : List ℚ))) = 0 := by
    rw [hm]
    norm_num [lvar, npMean, Finset.sum_range_succ]
  refine ⟨by rw [hcl]; norm_num, ?_⟩
  rw [scoreCorr, if_pos (by rw [hcl]; norm_num), pearsonOpt, if_pos (Or.inl hvz)]

/-- C6 amended: the common-id list enumerates exactly `set(raw_ids) &
set(enc_ids)`; the metric is present iff there are at least three common ids
AND both id-matched score series have nonzero variance (otherwise `pearsonr`
is NaN and dropped); when present it is the Pearson coefficient of the two
sequences paired by id and lies in `[-1, 1]`. -/
theorem scoreCorr_presence (raw_ids : List ℕ) (raw_scores : List ℚ)
    (enc_ids : List ℕ) (enc_scores : List ℚ) :
    (commonList raw_ids enc_ids).toFinset = raw_ids.toFinset ∩ enc_ids.toFinset ∧
    ((scoreCorr raw_ids raw_scores enc_ids enc_scores).isSome ↔
      3 ≤ (commonList raw_ids enc_ids).length ∧
      lvar ((commonList raw_ids enc_ids).map (scoreAt raw_ids raw_scores)) ≠ 0 ∧
      lvar ((commonList raw_ids enc_ids).map (scoreAt enc_ids enc_scores)) ≠ 0) ∧
    ∀ r, scoreCorr raw_ids raw_scores enc_ids enc_scores = some r → -1 ≤ r ∧ r ≤ 1 := by
  refine ⟨?_, ?_, ?_⟩
  · ext i
    simp [commonList, List.mem_filter]
  · rw [scoreCorr]
    by_cases hg : 3 ≤ (commonList raw_ids enc_ids).length
    · rw [if_pos hg, pearsonOpt]
      by_cases hz :
          lvar ((commonList raw_ids enc_ids).map (scoreAt raw_ids raw_scores)) = 0 ∨
          lvar ((commonList raw_ids enc_ids).map (scoreAt enc_ids enc_scores)) = 0
      · rw [if_pos hz]
        simp only [Option.isSome_none, Bool.false_eq_true, false_iff]
        rintro ⟨-, h1, h2⟩
        rcases hz with h | h
        · exact h1 h
        · exact h2 h
      · rw [if_neg hz]
        push_neg at hz
        simp [hg, hz.1, hz.2]
    · rw [if_neg hg]
      simp [hg]
  · intro r hr
    rw [scoreCorr] at hr
    by_cases hg : 3 ≤ (commonList raw_ids enc_ids).length
    · rw [if_pos hg] at hr
      exact pearsonOpt_bounds _ _
        ((List.length_map _ _).trans (List.length_map _ _).symm) r hr
    · rw [if_neg hg] at hr
      exact absurd hr (by simp)

/-- Witness for the amended C6 at a concrete defined case. -/
theorem scoreCorr_presence_witness :
    scoreCorr [1, 2, 3] [1, 2, 3] [1, 2, 3] [1, 2, 3] = some 1 ∧
    -1 ≤ (1 : ℝ) ∧ (1 : ℝ) ≤ 1 := by
  have hcl : commonList [1, 2, 3] [1, 2, 3] = [1, 2, 3] := by decide
  have hm : (commonList [1, 2, 3] [1, 2, 3]).map
      (scoreAt [1, 2, 3] ([1, 2, 3] : List ℚ)) = [1, 2, 3] := by
    rw [hcl]
    norm_num [scoreAt, List.indexOf_cons]
  have hv : lvar [(1 : ℚ), 2, 3] = 2 := by
    norm_num [lvar, npMean, Finset.sum_range_succ]
  have hc : lcov [(1 : ℚ), 2, 3] [(1 : ℚ), 2, 3] = 2 := by
    norm_num [lcov, npMean, Finset.sum_range_succ]
  have hval : scoreCorr [1, 2, 3] [1, 2, 3] [1, 2, 3] [1, 2, 3] = some 1 := by
    rw [scoreCorr, if_pos (by rw [hcl]; norm_num), hm, pearsonOpt]
    rw [if_neg (by simp [hv])]
    rw [hc, hv]
    have hs : Real.sqrt ((2 : ℚ) : ℝ) * Real.sqrt ((2 : ℚ) : ℝ) = ((2 : ℚ) : ℝ) :=
      Real.mul_self_sqrt (by positivity)
    rw [hs]
    norm_num
  exact ⟨hval, (scoreCorr_presence [1, 2, 3] [1, 2, 3] [1, 2, 3] [1, 2, 3]).2.2 1 hval⟩

/-- A stored record as the breach simulator sees it after the scroll call:
the original text payload and the stored vector. -/
structure StoredPoint where
  text : List Char
  vec : List ℚ
  deriving DecidableEq

/-- One collection section of `attack-stored-vectors.py` (lines 56-82 and
89-119): a `try` around the whole `for point in points` loop with a single
`except` handler.  Output: the (original, recovered) reports printed before
any failure, and the one error message printed by the handler, if any.
A record whose inversion raises therefore ends the section: records after it
are never processed. -/
def runSection (invert : StoredPoint → Except (List Char) (List Char)) :
    List StoredPoint → List (List Char × List Char) × Option (List Char)
  | [] => ([], none)
  | p :: t =>
    match invert p with
    | .ok r =>
      let rest := runSection invert t
      ((p.text, r) :: rest.1, rest.2)
    | .error e => ([], some e)

/-- First record of the counterexample batch: its inversion raises. -/
def cexPoint1 : StoredPoint := ⟨"alpha".toList, [1]⟩

/-- Second record of the counterexample batch: its inversion would succeed. -/
def cexPoint2 : StoredPoint := ⟨"beta".toList, [2]⟩

/-- A deterministic inverter that raises on `cexPoint1` only. -/
def cexInvert (p : StoredPoint) : Except (List Char) (List Char) :=
  if p.vec = [1] then .error "inversion failed".toList else .ok "beta text".toList

/-- C7 counterexample: the first record's inversion error ends the section —
the second record, whose inversion would succeed, produces no report at all,
so the remaining records of the batch are NOT still processed. -/
theorem attack_batch_abort_counterexample :
    runSection cexInvert [cexPoint1, cexPoint2] =
      ([], some "inversion failed".toList) ∧
    cexInvert cexPoint2 = .ok "beta text".toList := by
  constructor <;> rfl

/-- C7 amended: an inversion error is caught at the collection-section level,
not per record: when every record is inverted successfully the whole batch is
reported, but an error at one record keeps only the reports of the records
before it, reports the error once, and skips every remaining record of that
section. -/
theorem runSection_error_spec (invert : StoredPoint → Except (List Char) (List Char))
    (f : StoredPoint → List Char) :
    (∀ pts : List StoredPoint, (∀ q ∈ pts, invert q = .ok (f q)) →
      runSection invert pts = (pts.map (fun q => (q.text, f q)), none)) ∧
    (∀ (pre : List StoredPoint) (p : StoredPoint) (post : List StoredPoint)
      (e : List Char), (∀ q ∈ pre, invert q = .ok (f q)) → invert p = .error e →
      runSection invert (pre ++ p :: post) =
        (pre.map (fun q => (q.text, f q)), some e)) := by
  constructor
  · intro pts hall
    induction pts with
    | nil => rfl
    | cons q t ih =>
      have hq : invert q = .ok (f q) := hall q (List.mem_cons_self q t)
      have ht := ih (fun x hx => hall x (List.mem_cons_of_mem q hx))
      simp [runSection, hq, ht]
  · intro pre p post e hpre hp
    induction pre with
    | nil =>
      simp [runSection, hp]
    | cons q t ih =>
      have hq : invert q = .ok (f q) := hpre q (List.mem_cons_self q t)
      have ht := ih (fun x hx => hpre x (List.mem_cons_of_mem q hx))
      simp [runSection, hq, ht]

/-- Witness for the amended C7: a succeeding record followed by a failing
one yields exactly one report and one error, applying the theorem at that
concrete batch. -/
theorem runSection_error_spec_witness :
    runSection cexInvert [cexPoint2, cexPoint1] =
      ([("beta".toList, "beta text".toList)], some "inversion failed".toList) := by
  have h := (runSection_error_spec cexInvert (fun _ => "beta text".toList)).2
    [cexPoint2] cexPoint1 [] "inversion failed".toList
    (fun q hq => by
      have : q = cexPoint2 := by simpa using hq
      subst this
      rfl)
    rfl
  exact h

/-- `DELETE /collections/{name}`: Qdrant answers 404 for an absent
collection, which `urlopen` raises as an exception. -/
def deleteColl (s : List (List Char)) (n : List Char) :
    Except (List Char) (List (List Char)) :=
  if n ∈ s then .ok (s.erase n) else .error "404 not found".toList

/-- `PUT /collections/{name}`: create the collection. -/
def createColl (s : List (List Char)) (n : List Char) : List (List Char) :=
  n :: s

/-- `create_collection` (ingest-demo-data.py lines 38-47; the same
try/except-pass/PUT shape appears in prove-search-works.py lines 59-68 and
ingest-gtr.py lines 65-87): attempt the DELETE, swallow any error
(`except: pass`), then always PUT.  The return type is total: no error
propagates. -/
def create_collection (s : List (List Char)) (n : List Char) : List (List Char) :=
  createColl
    (match deleteColl s n with
      | .ok s1 => s1
      | .error _ => s) n

/-- C9: resetting a collection succeeds whether or not it exists — a failed
DELETE on an absent collection is swallowed, the creation still proceeds and
the collection exists afterwards; an existing collection is erased first. -/
theorem create_collection_reset (s : List (List Char)) (n : List Char) :
    n ∈ create_collection s n ∧
    (n ∉ s → create_collection s n = createColl s n) ∧
    (n ∈ s → create_collection s n = createColl (s.erase n) n) := by
  refine ⟨?_, fun habs => ?_, fun hmem => ?_⟩
  · exact List.mem_cons_self n _
  · rw [create_collection, deleteColl, if_neg habs]
  · rw [create_collection, deleteColl, if_pos hmem]

/-- Witness for C9 at an initially absent collection name. -/
theorem create_collection_reset_witness :
    "raw_documents".toList ∈ create_collection [] "raw_documents".toList ∧
    create_collection [] "raw_documents".toList =
      createColl [] "raw_documents".toList := by
  have h := create_collection_reset [] "raw_documents".toList
  exact ⟨h.1, h.2.1 (by decide)⟩

/-- `POST /collections/{name}/points/scroll` with `{'limit': 100, ...}`:
one page of at most `limit` stored records. -/
def scroll (stored : List StoredPoint) (limit : ℕ) : List StoredPoint :=
  stored.take limit

/-- `get_all_points` (attack-stored-vectors.py lines 22-30): a single scroll
request with fixed limit 100 and no pagination loop. -/
def get_all_points (stored : List StoredPoint) : List StoredPoint :=
  scroll stored 100

/-- The reports of a section never outnumber its input records. -/
theorem runSection_reports_le (invert : StoredPoint → Except (List Char) (List Char))
    (pts : List StoredPoint) : ((runSection invert pts).1).length ≤ pts.length := by
  induction pts with
  | nil => exact Nat.le_refl 0
  | cons p t ih =>
    rw [runSection]
    cases invert p with
    | ok r => simpa using ih
    | error e => simp

/-- C10: the simulated breach extracts `stored.take 100` — never more than
100 records — and when the collection holds more, some stored record is never
attacked (it yields no report in any section run). -/
theorem get_all_points_caps (stored : List StoredPoint) :
    get_all_points stored = stored.take 100 ∧
    (get_all_points stored).length = min 100 stored.length ∧
    (100 < stored.length → (get_all_points stored).length < stored.length) ∧
    ∀ invert, ((runSection invert (get_all_points stored)).1).length ≤ 100 := by
  refine ⟨rfl, List.length_take 100 stored, fun hbig => ?_, fun invert => ?_⟩
  · rw [get_all_points, scroll, List.length_take]
    exact lt_of_le_of_lt (Nat.min_le_left _ _) hbig
  · calc ((runSection invert (get_all_points stored)).1).length
        ≤ (get_all_points stored).length := runSection_reports_le _ _
      _ ≤ 100 := by
          rw [get_all_points, scroll, List.length_take]
          exact Nat.min_le_left _ _

/-- Witness for C10 at a collection holding 101 records. -/
theorem get_all_points_caps_witness :
    (get_all_points (List.replicate 101 ⟨[], []⟩)).length
      < (List.replicate 101 (⟨[], []⟩ : StoredPoint)).length := by
  exact (get_all_points_caps (List.replicate 101 ⟨[], []⟩)).2.2.1 (by simp)

/-- Similarity score of the model store: dot product (one-dimensional
vectors suffice to exercise the ranking logic). -/
def dotScore (qv v : ℚ) : ℚ := qv * v

/-- Insert one `(id, score)` record into a ranked result list: descending
score, ties broken by ascending id — a deterministic store ranking. -/
def insertRanked (p : ℕ × ℚ) : List (ℕ × ℚ) → List (ℕ × ℚ)
  | [] => [p]
  | q :: t =>
    if q.2 < p.2 ∨ (p.2 = q.2 ∧ p.1 ≤ q.1) then p :: q :: t
    else q :: insertRanked p t

/-- Deterministic nearest-neighbour search of the model store: rank all
records by score for the query vector and return the ids in order. -/
def searchIds (records : List (ℕ × ℚ)) (qv : ℚ) : List ℕ :=
  ((records.map (fun r => (r.1, dotScore qv r.2))).foldr insertRanked []).map Prod.fst

/-- One query of the comparative evaluator (`prove-search-works.py` lines
119-171) with the `uuid.uuid4()` draw of line 122 made explicit: `ids` is
the id assigned to each document.  Both collections are indexed with the same
ids, the query is searched plain against the plain records and encrypted
against the encrypted records, and the top-k overlap is reported. -/
def evalOverlap (ids : List ℕ) (embed : ℕ → ℚ) (encrypt : ℚ → ℚ)
    (docs : List ℕ) (q : ℕ) (k : ℕ) : ℚ :=
  topKOverlap (searchIds (ids.zip (docs.map embed)) (embed q))
    (searchIds (ids.zip (docs.map (fun d => encrypt (embed d)))) (encrypt (embed q))) k

/-- Deterministic embedding for the C8 counterexample: the query text `5`
embeds to `0`, document `d` embeds to `d + 1`. -/
def cexEmbed (d : ℕ) : ℚ := if d = 5 then 0 else d + 1

/-- Deterministic encryption for the C8 counterexample. -/
def cexEncrypt (v : ℚ) : ℚ := v + 1

/-- C8 counterexample: two runs over the same documents and query, with the
same deterministic embedding, encryption and store ranking, that differ only
in the evaluator's own random id draw, report different top-1 overlaps (0%
versus 100%): the plain scores tie and the store breaks the tie by id, so
the uuid randomness reaches the reported metric. -/
theorem evaluator_uuid_counterexample :
    evalOverlap [10, 20] cexEmbed cexEncrypt [0, 1] 5 1 = 0 ∧
    evalOverlap [20, 10] cexEmbed cexEncrypt [0, 1] 5 1 = 100 := by
  have hA1 : searchIds ([10, 20].zip ([0, 1].map cexEmbed)) (cexEmbed 5) = [10, 20] := by
    norm_num [searchIds, dotScore, cexEmbed, insertRanked]
  have hA2 : searchIds ([10, 20].zip ([0, 1].map (fun d => cexEncrypt (cexEmbed d))))
      (cexEncrypt (cexEmbed 5)) = [20, 10] := by
    norm_num [searchIds, dotScore, cexEmbed, cexEncrypt, insertRanked]
  have hB1 : searchIds ([20, 10].zip ([0, 1].map cexEmbed)) (cexEmbed 5) = [10, 20] := by
    norm_num [searchIds, dotScore, cexEmbed, insertRanked]
  have hB2 : searchIds ([20, 10].zip ([0, 1].map (fun d => cexEncrypt (cexEmbed d))))
      (cexEncrypt (cexEmbed 5)) = [10, 20] := by
    norm_num [searchIds, dotScore, cexEmbed, cexEncrypt, insertRanked]
  constructor
  · rw [evalOverlap, hA1, hA2]
    have hc : ((List.take 1 [10, 20]).toFinset ∩ (List.take 1 [20, 10]).toFinset).card
        = 0 := by decide
    rw [topKOverlap, hc]
    norm_num
  · rw [evalOverlap, hB1, hB2]
    have hc : ((List.take 1 [10, 20]).toFinset ∩ (List.take 1 [10, 20]).toFinset).card
        = 1 := by decide
    rw [topKOverlap, hc]
    norm_num

theorem lookup_map_key (f : ℕ → ℕ) (hf : Function.Injective f)
    (l : List (ℕ × ℕ)) (i : ℕ) :
    (l.map (fun q => (f q.1, q.2))).lookup (f i) = l.lookup i := by
  induction l with
  | nil => rfl
  | cons q t ih =>
    rcases q with ⟨a, _⟩
    by_cases h : i = a
    · subst h
      simp [List.lookup]
    · have h1 : (f i == f a) = false := by
        rw [beq_eq_false_iff_ne]
        exact fun hc => h (hf hc)
      have h2 : (i == a) = false := by
        rw [beq_eq_false_iff_ne]
        exact h
      simp [List.lookup, h1, h2, ih]

theorem dictRankGet_map (f : ℕ → ℕ) (hf : Function.Injective f)
    (raw_ids : List ℕ) (i : ℕ) :
    dictRankGet (raw_ids.map f) (f i) = dictRankGet raw_ids i := by
  unfold dictRankGet
  rw [List.enum_map, List.length_map]
  have hA : (((raw_ids.enum.map (Prod.map id f)).map (fun p => (p.2, p.1))).reverse :
      List (ℕ × ℕ)) =
      ((raw_ids.enum.map (fun p => (p.2, p.1))).reverse).map (fun q => (f q.1, q.2)) := by
    rw [List.map_reverse]
    congr 1
    rw [List.map_map, List.map_map]
    congr 1
  rw [hA, lookup_map_key f hf]

theorem enc_ranks_map (f : ℕ → ℕ) (hf : Function.Injective f)
    (raw_ids enc_ids : List ℕ) :
    enc_ranks (raw_ids.map f) (enc_ids.map f) = enc_ranks raw_ids enc_ids := by
  unfold enc_ranks
  rw [List.map_map]
  apply List.map_congr_left
  intro i _
  exact dictRankGet_map f hf raw_ids i

theorem list_toFinset_map (f : ℕ → ℕ) (l : List ℕ) :
    (l.map f).toFinset = l.toFinset.image f := by
  have h := Multiset.toFinset_map f (l : Multiset ℕ)
  simpa using h

theorem topKOverlap_map (f : ℕ → ℕ) (hf : Function.Injective f)
    (raw_ids enc_ids : List ℕ) (k : ℕ) :
    topKOverlap (raw_ids.map f) (enc_ids.map f) k = topKOverlap raw_ids enc_ids k := by
  unfold topKOverlap
  rw [← List.map_take, ← List.map_take, list_toFinset_map, list_toFinset_map,
    ← Finset.image_inter _ _ hf, Finset.card_image_of_injective _ hf]

theorem rankCorr_map (f : ℕ → ℕ) (hf : Function.Injective f)
    (raw_ids enc_ids : List ℕ) :
    rankCorr (raw_ids.map f) (enc_ids.map f) = rankCorr raw_ids enc_ids := by
  unfold rankCorr
  rw [List.length_map, enc_ranks_map f hf]

theorem indexOf_map_inj (f : ℕ → ℕ) (hf : Function.Injective f)
    (l : List ℕ) (i : ℕ) :
    (l.map f).indexOf (f i) = l.indexOf i := by
  induction l with
  | nil => rfl
  | cons a t ih =>
    by_cases h : i = a
    · subst h
      simp [List.indexOf_cons]
    · have h1 : (f a == f i) = false := by
        rw [beq_eq_false_iff_ne]
        exact fun hc => h (hf hc).symm
      have h2 : (a == i) = false := by
        rw [beq_eq_false_iff_ne]
        exact fun hc => h hc.symm
      simp [List.indexOf_cons, h1, h2, ih]

theorem dedup_map_inj (f : ℕ → ℕ) (hf : Function.Injective f) (l : List ℕ) :
    (l.map f).dedup = l.dedup.map f := by
  induction l with
  | nil => rfl
  | cons a t ih =>
    by_cases h : a ∈ t
    · rw [List.map_cons, List.dedup_cons_of_mem (List.mem_map_of_mem f h),
        List.dedup_cons_of_mem h, ih]
    · have hfa : f a ∉ t.map f := by
        intro hc
        exact h ((List.mem_map_of_injective hf).mp hc)
      rw [List.map_cons, List.dedup_cons_of_not_mem hfa,
        List.dedup_cons_of_not_mem h, ih, List.map_cons]

theorem commonList_map (f : ℕ → ℕ) (hf : Function.Injective f)
    (raw_ids enc_ids : List ℕ) :
    commonList (raw_ids.map f) (enc_ids.map f) = (commonList raw_ids enc_ids).map f := by
  unfold commonList
  rw [List.filter_map]
  have hp : ((fun i => decide (i ∈ enc_ids.map f)) ∘ f) = fun i => decide (i ∈ enc_ids) := by
    funext i
    show decide (f i ∈ enc_ids.map f) = decide (i ∈ enc_ids)
    exact decide_eq_decide.mpr (List.mem_map_of_injective hf)
  rw [hp, dedup_map_inj f hf]

theorem scoreAt_map (f : ℕ → ℕ) (hf : Function.Injective f)
    (ids : List ℕ) (scores : List ℚ) (i : ℕ) :
    scoreAt (ids.map f) scores (f i) = scoreAt ids scores i := by
  unfold scoreAt
  rw [indexOf_map_inj f hf]

theorem scoreCorr_map (f : ℕ → ℕ) (hf : Function.Injective f)
    (raw_ids : List ℕ) (raw_scores : List ℚ) (enc_ids : List ℕ) (enc_scores : List ℚ) :
    scoreCorr (raw_ids.map f) raw_scores (enc_ids.map f) enc_scores =
      scoreCorr raw_ids raw_scores enc_ids enc_scores := by
  unfold scoreCorr
  rw [commonList_map f hf, List.length_map]
  by_cases hg : 3 ≤ (commonList raw_ids enc_ids).length
  · rw [if_pos hg, if_pos hg, List.map_map, List.map_map]
    congr 1
    · apply List.map_congr_left
      intro i _
      exact scoreAt_map f hf raw_ids raw_scores i
    · apply List.map_congr_left
      intro i _
      exact scoreAt_map f hf enc_ids enc_scores i
  · rw [if_neg hg, if_neg hg]

/-- C8 amended: the evaluator is deterministic given the oracles AND its own
id draw, and every per-query metric it reports is invariant under an
injective renaming of the document ids — so two runs with different uuid
draws agree whenever the store ranking commutes with the renaming; the
counterexample shows that with a score-tie-breaking store the uuid draw does
leak into the reported overlap. -/
theorem metrics_id_renaming_invariant (f : ℕ → ℕ) (hf : Function.Injective f)
    (raw_ids enc_ids : List ℕ) (raw_scores enc_scores : List ℚ) (k : ℕ) :
    topKOverlap (raw_ids.map f) (enc_ids.map f) k = topKOverlap raw_ids enc_ids k ∧
    rankCorr (raw_ids.map f) (enc_ids.map f) = rankCorr raw_ids enc_ids ∧
    scoreCorr (raw_ids.map f) raw_scores (enc_ids.map f) enc_scores =
      scoreCorr raw_ids raw_scores enc_ids enc_scores :=
  ⟨topKOverlap_map f hf raw_ids enc_ids k, rankCorr_map f hf raw_ids enc_ids,
    scoreCorr_map f hf raw_ids raw_scores enc_ids enc_scores⟩

/-- Witness for the amended C8 with the injective renaming `Nat.succ`. -/
theorem metrics_id_renaming_invariant_witness :
    topKOverlap ([0, 1].map Nat.succ) ([0, 1].map Nat.succ) 1 =
      topKOverlap [0, 1] [0, 1] 1 ∧
    rankCorr ([0, 1].map Nat.succ) ([0, 1].map Nat.succ) = rankCorr [0, 1] [0, 1] ∧
    scoreCorr ([0, 1].map Nat.succ) [1, 2] ([0, 1].map Nat.succ) [1, 2] =
      scoreCorr [0, 1] [1, 2] [0, 1] [1, 2] :=
  metrics_id_renaming_invariant Nat.succ (fun _ _ h => Nat.succ.inj h)
    [0, 1] [0, 1] [1, 2] [1, 2] 1
